import Mathlib

/-!
Verification development for the astrid robot-control framework.

Shallow embedding of the core components of the repository:
chassis motion control (movement::Chassis / movement::TankChassis),
driver-control velocity mixing (movement::DriverControl),
the macro system and control arbitrator (movement::MacroSystem,
movement::EnhancedDriverControl), the input mapper
(movement::InputMapper), the subsystem registry
(core::SubsystemRegistry) and the event system (core::EventSystem).

Real-valued quantities of the C++ code (doubles) are modelled as
real numbers; timestamps as integers (milliseconds); button and
type identifiers as naturals.
-/

noncomputable section

open Real

/-- A field point (field::Point). -/
structure Point where
  x : ℝ
  y : ℝ

/-- Robot pose estimate (movement::Position); heading in radians. -/
structure Position where
  x : ℝ
  y : ℝ
  heading : ℝ

/-- Position::distanceTo: Euclidean distance to a field point. -/
def Position.distanceTo (p : Position) (t : Point) : ℝ :=
  Real.sqrt ((t.x - p.x) * (t.x - p.x) + (t.y - p.y) * (t.y - p.y))

/-- Position::angleTo: std::atan2(dy, dx), embedded as the complex argument
of the vector from the pose to the target. -/
def Position.angleTo (p : Position) (t : Point) : ℝ :=
  Complex.arg ⟨t.x - p.x, t.y - p.y⟩

/-- movement::OdomType. -/
inductive OdomType where
  | NONE
  | TRACKING
  | INTEGRATED
  | IMU_ENHANCED
deriving DecidableEq

/-- State owned by a chassis (movement::Chassis data members):
the stored pose `current_pos_`, the commanded motor velocities
(one entry per motor of `motors_`, in device units), and the optional
sensors: the IMU heading reading in degrees and the two tracking-wheel
rotation readings in degrees (`none` models a null sensor pointer). -/
structure ChassisState where
  pos : Position
  motors : List ℝ
  imu : Option ℝ
  leftEnc : Option ℝ
  rightEnc : Option ℝ

/-- Chassis::stop: sets every motor velocity to 0. -/
def ChassisState.stop (s : ChassisState) : ChassisState :=
  { s with motors := s.motors.map (fun _ => 0) }

/-- TankChassis::getPosition, parameterized by the odometry strategy
(the `Config::odomType` template argument).  Returns the reported pose
together with the chassis state after the call: the TRACKING branch
mutates the stored pose as a side effect of the read, the other
branches leave the state unchanged. -/
def getPosition (ot : OdomType) (s : ChassisState) : Position × ChassisState :=
  match ot with
  | .IMU_ENHANCED =>
      match s.imu with
      | some deg => (⟨s.pos.x, s.pos.y, deg * π / 180⟩, s)
      | none => (s.pos, s)
  | .TRACKING =>
      match s.imu, s.leftEnc, s.rightEnc with
      | some deg, some le, some renc =>
          let left_dist := le / 360 * (2.75 * π)
          let right_dist := renc / 360 * (2.75 * π)
          let heading := deg * π / 180
          let distance := (left_dist + right_dist) / 2
          let new_x := s.pos.x + distance * Real.cos heading
          let new_y := s.pos.y + distance * Real.sin heading
          (⟨new_x, new_y, heading⟩, { s with pos := ⟨new_x, new_y, heading⟩ })
      | _, _, _ => (s.pos, s)
  | _ => (s.pos, s)

/-- movement::DriverConfig (mode and controller id omitted: the claims
under verification concern the processing of already-polled inputs). -/
structure DriverConfig where
  curve_factor : ℝ := 1.5
  deadzone : ℝ := 0.05
  turn_scale : ℝ := 0.8

/-- DriverControl::applyDeadzone. -/
def applyDeadzone (cfg : DriverConfig) (input : ℝ) : ℝ :=
  if |input| < cfg.deadzone then 0 else input

/-- DriverControl::applyCurve: std::pow(|x|, factor) times the sign of x. -/
def applyCurve (cfg : DriverConfig) (input : ℝ) : ℝ :=
  |input| ^ cfg.curve_factor * (if input < 0 then -1 else 1)

/-- The arcade mixing stage of DriverControl::processArcadeDrive:
left = drive + turn, right = drive - turn, divided by
max(|left|, |right|) when that maximum exceeds 1.0. -/
def arcadeMix (drive turn : ℝ) : ℝ × ℝ :=
  let left := drive + turn
  let right := drive - turn
  let m := max |left| |right|
  if m > 1 then (left / m, right / m) else (left, right)

/-- The motor-write stage shared by the drive-processing paths:
motor i receives (left for the first half of the motors, right for the
rest) scaled by 200. -/
def writeMotorHalves (s : ChassisState) (left right : ℝ) : ChassisState :=
  let vs := (List.range s.motors.length).map
    (fun i => (if i < s.motors.length / 2 then left else right) * 200)
  { s with motors := vs }

/-- DriverControl::processArcadeDrive: the stick inputs (already divided
by 127) are deadzoned and curved, the turn input is scaled by
turn_scale, the results are mixed and written to the motor halves. -/
def processArcadeDrive (cfg : DriverConfig) (split : Bool)
    (leftY leftX rightX : ℝ) (s : ChassisState) : ChassisState :=
  let drive := applyCurve cfg (applyDeadzone cfg leftY)
  let turn := applyCurve cfg (applyDeadzone cfg (if split then rightX else leftX))
      * cfg.turn_scale
  writeMotorHalves s (arcadeMix drive turn).1 (arcadeMix drive turn).2

/-- A four-motor chassis as configured in the repository (two left,
two right), motors at rest. -/
def fourMotor : ChassisState :=
  ⟨⟨0, 0, 0⟩, [0, 0, 0, 0], none, none, none⟩

/-- C4: in Arcade/Split mode the mixed outputs are left = drive + turn
and right = drive - turn; when max(|left|, |right|) > 1.0 both are
divided by that maximum, otherwise they are unchanged; the outputs are
scaled by 200 and written to the motor halves.  In particular
drive = 1.0, turn = 1.0 gives left = 2.0, right = 0.0 before
normalization and (1.0, 0.0) after, and drive = 0.5, turn = 0.5 with
turn_scale = 0.8 gives left = 0.9, right = 0.1 with no normalization. -/
theorem arcadeMix_spec : ∀ drive turn : ℝ,
    (arcadeMix drive turn =
      if 1 < max |drive + turn| |drive - turn| then
        ((drive + turn) / max |drive + turn| |drive - turn|,
         (drive - turn) / max |drive + turn| |drive - turn|)
      else (drive + turn, drive - turn)) ∧
    ((1 : ℝ) + 1 = 2 ∧ (1 : ℝ) - 1 = 0 ∧ arcadeMix 1 1 = (1, 0)) ∧
    ((0.5 : ℝ) + 0.5 * 0.8 = 0.9 ∧ (0.5 : ℝ) - 0.5 * 0.8 = 0.1 ∧
      max |(0.5 : ℝ) + 0.5 * 0.8| |(0.5 : ℝ) - 0.5 * 0.8| ≤ 1 ∧
      arcadeMix 0.5 (0.5 * 0.8) = (0.9, 0.1)) ∧
    (writeMotorHalves fourMotor 1 0).motors = [200, 200, 0, 0] := by
  intro drive turn
  refine ⟨rfl, ⟨by norm_num, by norm_num, ?_⟩, ⟨by norm_num, by norm_num, ?_, ?_⟩, ?_⟩
  · show (if max |(1 : ℝ) + 1| |(1 : ℝ) - 1| > 1 then _ else _) = _
    rw [if_pos (by norm_num)]
    norm_num
  · norm_num [abs_le]
  · show (if max |(0.5 : ℝ) + 0.5 * 0.8| |(0.5 : ℝ) - 0.5 * 0.8| > 1 then _ else _) = _
    rw [if_neg (by norm_num [abs_le])]
    norm_num
  · norm_num [writeMotorHalves, fourMotor, List.range_succ]

/-- C7: with the IMU_ENHANCED odometry strategy and the orientation
sensor present, getPosition returns the stored x and y unchanged,
substitutes the heading with the live sensor reading converted to
radians, and leaves the stored state unmodified. -/
theorem getPosition_imuEnhanced (s : ChassisState) (d : ℝ) (h : s.imu = some d) :
    getPosition OdomType.IMU_ENHANCED s = (⟨s.pos.x, s.pos.y, d * π / 180⟩, s) := by
  simp [getPosition, h]

/-- Witness for getPosition_imuEnhanced at a concrete chassis state
whose stored pose is (3, 4, 0.5) and whose IMU reads 90 degrees. -/
theorem getPosition_imuEnhanced_witness :
    (⟨⟨3, 4, 0.5⟩, [0, 0], some 90, none, none⟩ : ChassisState).imu = some 90 ∧
    getPosition OdomType.IMU_ENHANCED ⟨⟨3, 4, 0.5⟩, [0, 0], some 90, none, none⟩ =
      (⟨3, 4, 90 * π / 180⟩, ⟨⟨3, 4, 0.5⟩, [0, 0], some 90, none, none⟩) :=
  ⟨rfl, getPosition_imuEnhanced ⟨⟨3, 4, 0.5⟩, [0, 0], some 90, none, none⟩ 90 rfl⟩

/-- The first normalization loop of TankChassis::moveTo / turnTo:
while (angle_error > M_PI) angle_error -= 2 * M_PI. -/
def normalizeDown (e : ℝ) : ℝ :=
  if h : e > π then normalizeDown (e - 2 * π) else e
termination_by (⌈(e - π) / (2 * π)⌉).toNat
decreasing_by
  have hπ := Real.pi_pos
  have h2 : (e - 2 * π - π) / (2 * π) = (e - π) / (2 * π) - 1 := by
    field_simp
    ring
  have h1 : (0 : ℝ) < (e - π) / (2 * π) := div_pos (by linarith) (by linarith)
  have h3 : (1 : ℤ) ≤ ⌈(e - π) / (2 * π)⌉ := Int.ceil_pos.mpr h1
  have h4 : ⌈(e - π) / (2 * π) - 1⌉ = ⌈(e - π) / (2 * π)⌉ - 1 := by
    rw [Int.ceil_sub_one]
  rw [h2, h4]
  omega

/-- The second normalization loop of TankChassis::moveTo / turnTo:
while (angle_error < -M_PI) angle_error += 2 * M_PI. -/
def normalizeUp (e : ℝ) : ℝ :=
  if h : e < -π then normalizeUp (e + 2 * π) else e
termination_by (⌈(-π - e) / (2 * π)⌉).toNat
decreasing_by
  have hπ := Real.pi_pos
  have h2 : (-π - (e + 2 * π)) / (2 * π) = (-π - e) / (2 * π) - 1 := by
    field_simp
    ring
  have h1 : (0 : ℝ) < (-π - e) / (2 * π) := div_pos (by linarith) (by linarith)
  have h3 : (1 : ℤ) ≤ ⌈(-π - e) / (2 * π)⌉ := Int.ceil_pos.mpr h1
  have h4 : ⌈(-π - e) / (2 * π) - 1⌉ = ⌈(-π - e) / (2 * π)⌉ - 1 := by
    rw [Int.ceil_sub_one]
  rw [h2, h4]
  omega

/-- The full angle-error normalization of moveTo / turnTo: the first
loop runs to completion, then the second. -/
def normalizeAngle (e : ℝ) : ℝ :=
  normalizeUp (normalizeDown e)

theorem normalizeDown_le (e : ℝ) : normalizeDown e ≤ π := by
  induction e using normalizeDown.induct with
  | case1 e h ih =>
      rw [normalizeDown, dif_pos h]
      exact ih
  | case2 e h =>
      rw [normalizeDown, dif_neg h]
      exact le_of_not_lt h

theorem normalizeUp_ge (e : ℝ) : -π ≤ normalizeUp e := by
  induction e using normalizeUp.induct with
  | case1 e h ih =>
      rw [normalizeUp, dif_pos h]
      exact ih
  | case2 e h =>
      rw [normalizeUp, dif_neg h]
      exact le_of_not_lt h

theorem normalizeUp_le (e : ℝ) (he : e ≤ π) : normalizeUp e ≤ π := by
  induction e using normalizeUp.induct with
  | case1 e h ih =>
      rw [normalizeUp, dif_pos h]
      have hπ := Real.pi_pos
      exact ih (by linarith)
  | case2 e h =>
      rw [normalizeUp, dif_neg h]
      exact he

theorem normalizeAngle_mem_Icc (e : ℝ) :
    normalizeAngle e ∈ Set.Icc (-π) π :=
  ⟨normalizeUp_ge _, normalizeUp_le _ (normalizeDown_le e)⟩

/-- The raw heading error computed by TankChassis::moveTo before
normalization: (bearing to target) - (current heading), plus pi when
approaching in reverse. -/
def headingError (cur : Position) (t : Point) (reverse : Bool) : ℝ :=
  (cur.angleTo t - cur.heading) + (if reverse then π else 0)

/-- C3 (amended): the normalization step of moveTo and turnTo maps
every raw heading error into the closed interval [-pi, pi] (not the
half-open interval (-pi, pi]); the example holds: an error of +3.2 rad
normalizes to 3.2 - 2*pi, within 0.01 of -3.08 rad. -/
theorem normalizeAngle_range_closed :
    (∀ (cur : Position) (t : Point) (reverse : Bool),
      normalizeAngle (headingError cur t reverse) ∈ Set.Icc (-π) π) ∧
    (∀ angle heading : ℝ, normalizeAngle (angle - heading) ∈ Set.Icc (-π) π) ∧
    normalizeAngle 3.2 = 3.2 - 2 * π ∧
    |normalizeAngle 3.2 - (-3.08)| < 0.01 := by
  have hlt : π < 3.141593 := Real.pi_lt_d6
  have hgt : π > 3.141592 := Real.pi_gt_d6
  have hval : normalizeAngle 3.2 = 3.2 - 2 * π := by
    have h1 : normalizeDown (3.2 - 2 * π) = 3.2 - 2 * π := by
      rw [normalizeDown, dif_neg (by linarith)]
    have h2 : normalizeDown (3.2 : ℝ) = 3.2 - 2 * π := by
      rw [normalizeDown, dif_pos (by linarith), h1]
    rw [normalizeAngle, h2, normalizeUp, dif_neg (by linarith)]
  refine ⟨fun cur t reverse => normalizeAngle_mem_Icc _,
    fun angle heading => normalizeAngle_mem_Icc _, hval, ?_⟩
  rw [hval, abs_lt]
  constructor <;> linarith

/-- C3 (counterexample): at pose (0, 0, pi) with target (1, 0) and no
reverse flag the raw heading error computed by moveTo is exactly -pi,
and the normalization loops leave it at -pi, which is not in the
half-open interval (-pi, pi] the claim states. -/
theorem normalizeAngle_neg_pi_cex :
    headingError ⟨0, 0, π⟩ ⟨1, 0⟩ false = -π ∧
    normalizeAngle (-π) = -π ∧
    -π ∉ Set.Ioc (-π) π := by
  have hπ := Real.pi_pos
  refine ⟨?_, ?_, ?_⟩
  · have harg : Position.angleTo ⟨0, 0, π⟩ ⟨1, 0⟩ = 0 := by
      have h1 : (⟨1 - 0, 0 - 0⟩ : ℂ) = 1 := by
        apply Complex.ext <;> norm_num
      rw [Position.angleTo]
      show Complex.arg ⟨1 - 0, 0 - 0⟩ = 0
      rw [h1, Complex.arg_one]
    rw [headingError, harg]
    norm_num
  · rw [normalizeAngle, normalizeDown, dif_neg (by linarith),
      normalizeUp, dif_neg (by linarith)]
  · simp [Set.mem_Ioc]

/-- TankChassis PID constants. -/
def kP : ℝ := 0.8

def kI : ℝ := 0.001

def kD : ℝ := 0.2

def kTurnP : ℝ := 1.2

/-- The motor-power write of one moveTo iteration: motor i receives
drive_power + turn_power on the left half and drive_power - turn_power
on the right half, scaled by 200. -/
def applyDrivePowers (s : ChassisState) (drivePower turnPower : ℝ) : ChassisState :=
  let vs := (List.range s.motors.length).map
    (fun i => (drivePower + (if i < s.motors.length / 2 then turnPower else -turnPower)) * 200)
  { s with motors := vs }

/-- The while loop of TankChassis::moveTo.  The `enabled_` member is a
shared flag that a concurrent disable() may clear between iterations,
so the successive reads of the flag are modelled by the oracle `sched`
(read number k yields `sched k`); the entry check is read 0, the k-th
loop-condition check is read k.  `fuel` bounds the modelled iterations:
`none` means the loop has not exited within `fuel` iterations (the code
has no convergence guard, so nontermination is representable). -/
def moveToLoop (ot : OdomType) (t : Point) (reverse : Bool) (sched : ℕ → Bool) :
    ℕ → ℕ → ChassisState → Option ChassisState
  | 0, _, _ => none
  | fuel + 1, k, s =>
      if sched k = false then some s
      else
        let cs := getPosition ot s
        let distance := cs.1.distanceTo t
        if distance < 1 then some cs.2
        else
          let angle_error := normalizeAngle (headingError cs.1 t reverse)
          let turn_power := kTurnP * angle_error
          let drive_power := kP * distance
          moveToLoop ot t reverse sched fuel (k + 1)
            (applyDrivePowers cs.2 drive_power turn_power)

/-- TankChassis::moveTo.  Returns `none` when the internal loop has not
exited within `fuel` iterations; otherwise returns the final chassis
state paired with a flag recording whether stop() was invoked before
returning. -/
def moveTo (ot : OdomType) (t : Point) (reverse : Bool) (sched : ℕ → Bool)
    (fuel : ℕ) (s : ChassisState) : Option (ChassisState × Bool) :=
  if sched 0 = false then some (s, false)
  else (moveToLoop ot t reverse sched fuel 1 s).map (fun s2 => (s2.stop, true))

/-- C1 (amended): whenever moveTo is entered with the subsystem enabled
and returns — because the distance fell below the 1.0 tolerance or
because the subsystem was disabled at a loop boundary — stop() has been
invoked and every motor velocity is 0.  (When the subsystem is already
disabled at entry, moveTo instead returns immediately without invoking
stop(); see the counterexample.) -/
theorem moveTo_stop_on_exit (ot : OdomType) (t : Point) (reverse : Bool)
    (sched : ℕ → Bool) (fuel : ℕ) (s : ChassisState) (out : ChassisState × Bool)
    (hen : sched 0 = true)
    (hret : moveTo ot t reverse sched fuel s = some out) :
    out.2 = true ∧ ∀ v ∈ out.1.motors, v = 0 := by
  rw [moveTo, hen] at hret
  simp only [Bool.true_eq_false, if_false, Option.map_eq_some'] at hret
  obtain ⟨s2, _, hout⟩ := hret
  subst hout
  refine ⟨rfl, ?_⟩
  intro v hv
  simp [ChassisState.stop] at hv
  exact hv.2

/-- A chassis state with one motor commanded at velocity 5 and the
stored pose at the origin. -/
def cexChassis : ChassisState := ⟨⟨0, 0, 0⟩, [5], none, none, none⟩

/-- C1 (counterexample): with the subsystem disabled at entry, moveTo
returns immediately: stop() is never invoked and the motor commanded at
velocity 5 keeps that nonzero velocity. -/
theorem moveTo_disabled_entry_cex :
    moveTo OdomType.IMU_ENHANCED ⟨0, 0⟩ false (fun _ => false) 5 cexChassis =
      some (cexChassis, false) ∧
    (5 : ℝ) ∈ cexChassis.motors ∧ (5 : ℝ) ≠ 0 := by
  refine ⟨?_, ?_, by norm_num⟩
  · rw [moveTo]
    simp
  · simp [cexChassis]

/-- A two-motor chassis state, both motors commanded at velocity 5,
pose at the origin. -/
def witChassis : ChassisState := ⟨⟨0, 0, 0⟩, [5, 5], none, none, none⟩

/-- Witness for moveTo_stop_on_exit: a concrete enabled run whose
target equals the current position exits on the first iteration and
returns with stop() invoked and both motors at velocity 0. -/
theorem moveTo_stop_on_exit_witness :
    ((fun _ : ℕ => true) 0 = true) ∧
    moveTo OdomType.IMU_ENHANCED ⟨0, 0⟩ false (fun _ => true) 1 witChassis =
      some (witChassis.stop, true) ∧
    ((witChassis.stop, true).2 = true ∧
      ∀ v ∈ (witChassis.stop, true).1.motors, v = 0) := by
  have hd : Position.distanceTo ⟨0, 0, 0⟩ ⟨0, 0⟩ = 0 := by
    rw [Position.distanceTo]
    norm_num
  have hr : moveTo OdomType.IMU_ENHANCED ⟨0, 0⟩ false (fun _ => true) 1 witChassis =
      some (witChassis.stop, true) := by
    rw [moveTo]
    simp only [Bool.true_eq_false, if_false]
    rw [moveToLoop]
    simp [getPosition, witChassis, hd]
  exact ⟨rfl, hr,
    moveTo_stop_on_exit OdomType.IMU_ENHANCED ⟨0, 0⟩ false (fun _ => true) 1
      witChassis (witChassis.stop, true) rfl hr⟩

/-- Association-list lookup, modelling std::unordered_map::find (the
iteration order of the C++ map is unspecified; the claims under
verification do not depend on it). -/
def lookupA {κ α : Type} [DecidableEq κ] : List (κ × α) → κ → Option α
  | [], _ => none
  | (k2, v) :: rest, k => if k2 = k then some v else lookupA rest k

/-- Association-list insert-or-overwrite, modelling assignment through
std::unordered_map::operator[]. -/
def insertA {κ α : Type} [DecidableEq κ] : List (κ × α) → κ → α → List (κ × α)
  | [], k, v => [(k, v)]
  | (k2, v2) :: rest, k, v =>
      if k2 = k then (k, v) :: rest else (k2, v2) :: insertA rest k v

/-- State of movement::MacroSystem: the catalog of registered macros
(keyed by name, each holding the macro object's mutable state of type
mu), the active-macro name (the empty string means none), and the
subsystem's enabled flag. -/
structure MacroSystemState (μ : Type) where
  macros : List (String × μ)
  activeMacro : String
  enabled : Bool

/-- The virtual interface of movement::Macro, as state-transforming
functions on the macro object's state. -/
structure MacroOps (μ : Type) where
  execute : μ → μ
  isComplete : μ → Bool
  reset : μ → μ

/-- MacroSystem::startMacro. -/
def startMacro {μ : Type} (ops : MacroOps μ) (ms : MacroSystemState μ)
    (name : String) : Bool × MacroSystemState μ :=
  if ms.enabled = false then (false, ms)
  else
    match lookupA ms.macros name with
    | some m =>
        if ms.activeMacro = "" then
          (true, { ms with activeMacro := name,
                           macros := insertA ms.macros name (ops.reset m) })
        else (false, ms)
    | none => (false, ms)

/-- MacroSystem::stopMacro. -/
def stopMacro {μ : Type} (ms : MacroSystemState μ) : MacroSystemState μ :=
  { ms with activeMacro := "" }

/-- MacroSystem::isMacroActive: !active_macro_.empty(). -/
def isMacroActive {μ : Type} (ms : MacroSystemState μ) : Bool :=
  if ms.activeMacro = "" then false else true

/-- MacroSystem::update: while enabled and a macro is active, execute
the active macro and clear to idle when it reports complete. -/
def updateMacroSystem {μ : Type} (ops : MacroOps μ) (ms : MacroSystemState μ) :
    MacroSystemState μ :=
  if ms.enabled = false ∨ ms.activeMacro = "" then ms
  else
    match lookupA ms.macros ms.activeMacro with
    | some m =>
        let m2 := ops.execute m
        let ms2 := { ms with macros := insertA ms.macros ms.activeMacro m2 }
        if ops.isComplete m2 then stopMacro ms2 else ms2
    | none => ms

/-- movement::MovementMacro: its state is the complete_ flag; execute
runs the wrapped movement function once and marks the macro complete
(the wrapped function's chassis effects live outside the MacroSystem
state the claims concern). -/
def movementMacroOps : MacroOps Bool :=
  ⟨fun c => if c = false then true else c, fun c => c, fun _ => false⟩

/-- A macro system holding macros A and B, idle and enabled. -/
def msAB0 : MacroSystemState Bool := ⟨[("A", false), ("B", false)], "", true⟩

/-- msAB0 after startMacro "A". -/
def msAB1 : MacroSystemState Bool := ⟨[("A", false), ("B", false)], "A", true⟩

/-- msAB1 after one update tick: A has executed and reported complete,
so the system is idle again. -/
def msAB2 : MacroSystemState Bool := ⟨[("A", true), ("B", false)], "", true⟩

/-- C2 (amended): provided the subsystem is enabled, startMacro returns
false with no state change when a macro is already active or the name
is unknown, and otherwise resets the named macro, makes it active and
returns true; the claim's scenario holds: start "A" succeeds, start "B"
while A is active fails and leaves A active, and after A reports
complete start "B" succeeds. -/
theorem startMacro_spec_enabled {μ : Type} (ops : MacroOps μ)
    (ms : MacroSystemState μ) (name : String) (hen : ms.enabled = true) :
    ((ms.activeMacro ≠ "" ∨ lookupA ms.macros name = none) →
      startMacro ops ms name = (false, ms)) ∧
    (∀ m, lookupA ms.macros name = some m → ms.activeMacro = "" →
      startMacro ops ms name =
        (true, { ms with activeMacro := name,
                         macros := insertA ms.macros name (ops.reset m) })) ∧
    (startMacro movementMacroOps msAB0 "A" = (true, msAB1) ∧
      startMacro movementMacroOps msAB1 "B" = (false, msAB1) ∧
      updateMacroSystem movementMacroOps msAB1 = msAB2 ∧
      (startMacro movementMacroOps msAB2 "B").1 = true) := by
  refine ⟨?_, ?_, rfl, rfl, rfl, rfl⟩
  · rintro (hact | hmiss)
    · rw [startMacro, hen]
      simp only [Bool.true_eq_false, if_false]
      cases hl : lookupA ms.macros name with
      | none => rfl
      | some m => simp [hl, if_neg hact]
    · rw [startMacro, hen]
      simp [hmiss]
  · intro m hm hact
    rw [startMacro, hen]
    simp [hm, hact]

/-- The macro system of msAB0 with the subsystem disabled. -/
def msDis : MacroSystemState Bool := ⟨[("A", false)], "", false⟩

/-- C2 (counterexample): in a state where no macro is active and "A" is
in the catalog but the subsystem is disabled, startMacro "A" returns
false and changes nothing, where the claim predicts it returns true and
activates A. -/
theorem startMacro_disabled_cex :
    msDis.activeMacro = "" ∧
    lookupA msDis.macros "A" = some false ∧
    startMacro movementMacroOps msDis "A" = (false, msDis) :=
  ⟨rfl, rfl, rfl⟩

/-- Witness for startMacro_spec_enabled: applying it to the concrete
enabled two-macro system activates A. -/
theorem startMacro_spec_enabled_witness :
    startMacro movementMacroOps msAB0 "A" =
      (true, { msAB0 with activeMacro := "A",
                          macros := insertA msAB0.macros "A"
                            (movementMacroOps.reset false) }) :=
  (startMacro_spec_enabled movementMacroOps msAB0 "A" rfl).2.1 false rfl rfl

/-- A one-macro catalog, idle, subsystem disabled. -/
def msDis10 : MacroSystemState Bool := ⟨[("M", false)], "", false⟩

/-- C10: whenever the MacroSystem subsystem itself is disabled,
startMacro returns false and leaves the state unchanged, regardless of
the catalog and of the active-macro name. -/
theorem startMacro_requires_enabled {μ : Type} (ops : MacroOps μ)
    (ms : MacroSystemState μ) (name : String) (h : ms.enabled = false) :
    startMacro ops ms name = (false, ms) := by
  rw [startMacro, h]
  simp

/-- Witness for startMacro_requires_enabled at a disabled system whose
catalog contains the requested name and with no macro active. -/
theorem startMacro_requires_enabled_witness :
    msDis10.enabled = false ∧
    lookupA msDis10.macros "M" = some false ∧
    msDis10.activeMacro = "" ∧
    startMacro movementMacroOps msDis10 "M" = (false, msDis10) :=
  ⟨rfl, rfl, rfl, startMacro_requires_enabled movementMacroOps msDis10 "M" rfl⟩

/-- The two sub-updates EnhancedDriverControl::update can dispatch to. -/
inductive UpdateCall where
  | macroSystemCall
  | inputMapperCall
deriving DecidableEq

/-- EnhancedDriverControl::update: when enabled, dispatch to the macro
system's update if a macro is active, otherwise to the input mapper's
update (modelled by an arbitrary transformation of an abstract mapper
state).  The returned list records which sub-updates ran this tick. -/
def enhancedDriverControlUpdate {μ ι : Type} (ops : MacroOps μ)
    (mapperUpd : ι → ι) (enabled : Bool) (ms : MacroSystemState μ) (im : ι) :
    (MacroSystemState μ × ι) × List UpdateCall :=
  if enabled = false then ((ms, im), [])
  else if isMacroActive ms then
    ((updateMacroSystem ops ms, im), [UpdateCall.macroSystemCall])
  else ((ms, mapperUpd im), [UpdateCall.inputMapperCall])

/-- C5: on every tick of the enabled arbitrator exactly one sub-update
runs: the macro system's update exactly when a macro is active (and
then the input mapper's state is untouched), the input mapper's update
exactly when no macro is active (and then the macro system's state is
untouched). -/
theorem edcUpdate_exclusive {μ ι : Type} (ops : MacroOps μ) (mapperUpd : ι → ι)
    (ms : MacroSystemState μ) (im : ι) :
    (enhancedDriverControlUpdate ops mapperUpd true ms im).2.length = 1 ∧
    (UpdateCall.macroSystemCall ∈
        (enhancedDriverControlUpdate ops mapperUpd true ms im).2 ↔
      isMacroActive ms = true) ∧
    (UpdateCall.inputMapperCall ∈
        (enhancedDriverControlUpdate ops mapperUpd true ms im).2 ↔
      isMacroActive ms = false) ∧
    (enhancedDriverControlUpdate ops mapperUpd true ms im).1 =
      (if isMacroActive ms then (updateMacroSystem ops ms, im)
       else (ms, mapperUpd im)) := by
  cases h : isMacroActive ms <;>
    simp [enhancedDriverControlUpdate, h]

/-- movement::InputType. -/
inductive InputType where
  | BUTTON
  | BUTTON_COMBO
  | ANALOG_ABOVE
  | ANALOG_BELOW
  | SEQUENCE
deriving DecidableEq

/-- movement::InputBinding.  Buttons are identified by naturals, the
analog threshold is a rational (the C++ double 0.0 default), the
sequence window is in integer milliseconds. -/
structure InputBinding where
  type : InputType
  buttons : List ℕ
  analog : ℕ := 0
  threshold : ℚ := 0
  sequence_window : ℤ := 500

/-- The controller readings of one tick: get_digital (level),
get_digital_new_press (edge), get_analog (raw value, -127..127). -/
structure ControllerState where
  held : ℕ → Bool
  newPress : ℕ → Bool
  analogVal : ℕ → ℤ

/-- The history clean-up of the SEQUENCE case of
InputMapper::checkBinding: entries with now - t > window are removed. -/
def cleanHistory (now window : ℤ) (hist : List (ℤ × String)) : List (ℤ × String) :=
  hist.filter (fun e => decide (now - e.1 ≤ window))

/-- The input-recording step of the SEQUENCE case: the first listed
button reporting a new press is appended to the history with the
current timestamp. -/
def recordNewPress (buttons : List ℕ) (ctrl : ControllerState) (now : ℤ)
    (hist : List (ℤ × String)) : List (ℤ × String) :=
  match buttons.find? (fun b => ctrl.newPress b) with
  | some b => hist ++ [(now, toString b)]
  | none => hist

/-- InputMapper::checkBinding.  Returns the fire decision and the
updated shared input history (only the SEQUENCE case touches it).
In the SEQUENCE case the per-position comparison of the source compares
controller_.get_digital(buttons[i]) against the very same expression,
which is mirrored here verbatim by `ctrl.held b == ctrl.held b`. -/
def checkBinding (binding : InputBinding) (ctrl : ControllerState) (now : ℤ)
    (hist : List (ℤ × String)) : Bool × List (ℤ × String) :=
  match binding.type with
  | .BUTTON =>
      match binding.buttons with
      | [] => (false, hist)
      | b :: _ => (ctrl.newPress b, hist)
  | .BUTTON_COMBO => (binding.buttons.all (fun b => ctrl.held b), hist)
  | .ANALOG_ABOVE =>
      (decide (((ctrl.analogVal binding.analog : ℚ) / 127) > binding.threshold), hist)
  | .ANALOG_BELOW =>
      (decide (((ctrl.analogVal binding.analog : ℚ) / 127) < binding.threshold), hist)
  | .SEQUENCE =>
      let hist1 := cleanHistory now binding.sequence_window hist
      if hist1.length = binding.buttons.length then
        let matched := binding.buttons.all (fun b => ctrl.held b == ctrl.held b)
        if matched then (true, [])
        else (false, recordNewPress binding.buttons ctrl now hist1)
      else (false, recordNewPress binding.buttons ctrl now hist1)

/-- C6: a Sequence binding fires (and clears the history) exactly when
the number of recorded press events inside the sliding window equals
the expected sequence length; which buttons produced the recorded
presses is never verified: the decision is unchanged under any
replacement of the controller's digital readings and under any
relabelling of the recorded button names. -/
theorem checkBinding_sequence_count_only
    (buttons : List ℕ) (analogCh : ℕ) (threshold : ℚ) (window : ℤ)
    (ctrl : ControllerState) (now : ℤ) (hist : List (ℤ × String)) :
    (checkBinding ⟨InputType.SEQUENCE, buttons, analogCh, threshold, window⟩
        ctrl now hist =
      if (cleanHistory now window hist).length = buttons.length then (true, [])
      else (false, recordNewPress buttons ctrl now (cleanHistory now window hist))) ∧
    (∀ held2 : ℕ → Bool,
      (checkBinding ⟨InputType.SEQUENCE, buttons, analogCh, threshold, window⟩
          ⟨held2, ctrl.newPress, ctrl.analogVal⟩ now hist).1 =
        (checkBinding ⟨InputType.SEQUENCE, buttons, analogCh, threshold, window⟩
          ctrl now hist).1) ∧
    (∀ f : String → String,
      (checkBinding ⟨InputType.SEQUENCE, buttons, analogCh, threshold, window⟩
          ctrl now (hist.map (fun e => (e.1, f e.2)))).1 =
        (checkBinding ⟨InputType.SEQUENCE, buttons, analogCh, threshold, window⟩
          ctrl now hist).1) := by
  have hmatches : ∀ h : ℕ → Bool, (buttons.all (fun b => h b == h b)) = true := by
    intro h
    simp
  have hmain : ∀ c : ControllerState, ∀ hs : List (ℤ × String),
      checkBinding ⟨InputType.SEQUENCE, buttons, analogCh, threshold, window⟩
          c now hs =
        if (cleanHistory now window hs).length = buttons.length then (true, [])
        else (false, recordNewPress buttons c now (cleanHistory now window hs)) := by
    intro c hs
    rw [checkBinding]
    simp only [hmatches, if_true]
  have hclean : ∀ f : String → String,
      cleanHistory now window (hist.map (fun e => (e.1, f e.2))) =
        (cleanHistory now window hist).map (fun e => (e.1, f e.2)) := by
    intro f
    rw [cleanHistory, cleanHistory, List.filter_map]
    rfl
  refine ⟨hmain ctrl hist, fun held2 => ?_, fun f => ?_⟩
  · rw [hmain, hmain]
    by_cases hc : (cleanHistory now window hist).length = buttons.length <;>
      simp [hc]
  · rw [hmain, hmain, hclean, List.length_map]
    by_cases hc : (cleanHistory now window hist).length = buttons.length <;>
      simp [hc]

/-- A type-erased subsystem instance as stored by the registry:
its unique name, a tag standing for the exact concrete C++ type
(std::type_index of the full template parameterization), an instance
identity, and its enabled flag (set by initialize). -/
structure SubInst where
  name : String
  typeTag : ℕ
  instId : ℕ
  enabled : Bool
deriving DecidableEq

/-- State of core::SubsystemRegistry: the by-name map and the by-type
cache. -/
structure RegistryState where
  subsystems : List (String × SubInst)
  typeCache : List (ℕ × SubInst)
deriving DecidableEq

def emptyRegistry : RegistryState := ⟨[], []⟩

/-- SubsystemRegistry::registerSubsystem<T>: store into the name map,
record under the concrete type tag, then initialize.  The two maps hold
the same shared_ptr, so the initialize call (enabled := true) is
observable through both entries. -/
def registerSubsystem (r : RegistryState) (s : SubInst) : RegistryState :=
  let s2 := { s with enabled := true }
  ⟨insertA r.subsystems s.name s2, insertA r.typeCache s.typeTag s2⟩

/-- SubsystemRegistry::getSubsystem<T>(name): by-name lookup followed
by dynamic_pointer_cast<T>, modelled as an exact type-tag check. -/
def getSubsystem (r : RegistryState) (tag : ℕ) (name : String) : Option SubInst :=
  match lookupA r.subsystems name with
  | some s => if s.typeTag = tag then some s else none
  | none => none

/-- SubsystemRegistry::getSubsystemByType<T>: exact-tag lookup in the
type cache. -/
def getSubsystemByType (r : RegistryState) (tag : ℕ) : Option SubInst :=
  lookupA r.typeCache tag

theorem lookupA_insertA_self {κ α : Type} [DecidableEq κ]
    (l : List (κ × α)) (k : κ) (v : α) :
    lookupA (insertA l k v) k = some v := by
  induction l with
  | nil => simp [insertA, lookupA]
  | cons hd rest ih =>
      obtain ⟨k2, v2⟩ := hd
      by_cases hk : k2 = k
      · subst hk
        simp [insertA, lookupA]
      · simp [insertA, lookupA, hk, ih]

theorem lookupA_insertA_ne {κ α : Type} [DecidableEq κ]
    (l : List (κ × α)) (k k2 : κ) (v : α) (h : k2 ≠ k) :
    lookupA (insertA l k v) k2 = lookupA l k2 := by
  have hne : ¬(k = k2) := fun hh => h hh.symm
  induction l with
  | nil => simp [insertA, lookupA, hne]
  | cons hd rest ih =>
      obtain ⟨k3, v3⟩ := hd
      by_cases hk : k3 = k
      · subst hk
        simp [insertA, lookupA, hne]
      · simp only [insertA, if_neg hk, lookupA]
        by_cases hk2 : k3 = k2
        · simp [hk2]
        · simp [hk2, ih]

/-- C8: registering a second subsystem under a name already in use
leaves only the second instance resolvable by that name, and a
type-based lookup under a concrete parameterization different from the
one used at registration returns an empty result. -/
theorem registry_overwrite_and_type_miss (r : RegistryState)
    (s1 s2 s3 : SubInst) (tag : ℕ) (hname : s1.name = s2.name)
    (hid : s1.instId ≠ s2.instId) (htag : tag ≠ s3.typeTag) :
    lookupA (registerSubsystem (registerSubsystem r s1) s2).subsystems s1.name =
      some { s2 with enabled := true } ∧
    lookupA (registerSubsystem (registerSubsystem r s1) s2).subsystems s1.name ≠
      some { s1 with enabled := true } ∧
    getSubsystemByType (registerSubsystem emptyRegistry s3) tag = none := by
  have h1 : lookupA (registerSubsystem (registerSubsystem r s1) s2).subsystems
      s1.name = some { s2 with enabled := true } := by
    rw [hname, registerSubsystem]
    exact lookupA_insertA_self _ _ _
  refine ⟨h1, ?_, ?_⟩
  · rw [h1]
    intro hcontra
    have := congrArg (fun o => (Option.map SubInst.instId o)) hcontra
    simp at this
    exact hid this.symm
  · rw [getSubsystemByType, registerSubsystem]
    rw [lookupA_insertA_ne _ _ _ _ htag]
    rfl

/-- Witness for registry_overwrite_and_type_miss: two chassis
subsystems registered under the name "drive" with distinct concrete
types; only the second remains resolvable, and a lookup under the
unused tag 5 is empty. -/
theorem registry_overwrite_and_type_miss_witness :
    lookupA (registerSubsystem (registerSubsystem emptyRegistry
        ⟨"drive", 1, 1, false⟩) ⟨"drive", 2, 2, false⟩).subsystems "drive" =
      some ⟨"drive", 2, 2, true⟩ ∧
    lookupA (registerSubsystem (registerSubsystem emptyRegistry
        ⟨"drive", 1, 1, false⟩) ⟨"drive", 2, 2, false⟩).subsystems "drive" ≠
      some ⟨"drive", 1, 1, true⟩ ∧
    getSubsystemByType (registerSubsystem emptyRegistry
      ⟨"drive", 1, 1, false⟩) 5 = none :=
  registry_overwrite_and_type_miss emptyRegistry ⟨"drive", 1, 1, false⟩
    ⟨"drive", 2, 2, false⟩ ⟨"drive", 1, 1, false⟩ 5 rfl
    (by decide) (by decide)

/-- A wrapped handler stored by core::EventSystem: the payload type T
of the subscription (as a runtime type tag) and the identity of the
user handler inside the wrapper. -/
structure EvHandler where
  tag : ℕ
  hid : ℕ
deriving DecidableEq

/-- State of core::EventSystem: per-topic handler lists in registration
order. -/
structure EventSystemState where
  handlers : List (String × List EvHandler)

/-- EventSystem::subscribe<T>: handlers_[topic].push_back(wrapped). -/
def subscribe (es : EventSystemState) (topic : String) (h : EvHandler) :
    EventSystemState :=
  ⟨insertA es.handlers topic (((lookupA es.handlers topic).getD []) ++ [h])⟩

/-- EventSystem::emit<T>: every wrapped handler of the topic runs in
registration order; the wrapper invokes the user handler exactly when
the payload's runtime type matches the subscription type T, and
silently skips it otherwise.  The result is the list of user handlers
actually invoked, in order. -/
def emit (es : EventSystemState) (topic : String) (payloadTag : ℕ) :
    List EvHandler :=
  match lookupA es.handlers topic with
  | some hs => hs.filter (fun h => h.tag == payloadTag)
  | none => []

/-- The runtime type tags of the claim's example payloads. -/
def boolTag : ℕ := 0

def intTag : ℕ := 1

theorem emit_tag_eq (es : EventSystemState) (topic : String) (ptag : ℕ)
    (h : EvHandler) (hmem : h ∈ emit es topic ptag) : h.tag = ptag := by
  rw [emit] at hmem
  cases hl : lookupA es.handlers topic with
  | none => rw [hl] at hmem; simp at hmem
  | some hs =>
      rw [hl] at hmem
      have := List.of_mem_filter hmem
      simpa using this

/-- C9: a handler subscribed for payload type T is invoked by emit only
when the emitted payload's runtime type is exactly T; in particular a
handler subscribed for bool is never invoked by an int emit on the same
topic (the mismatch is skipped, not an error). -/
theorem emit_type_match_only (es : EventSystemState) (topic : String) (ptag : ℕ) :
    (∀ h ∈ emit es topic ptag, h.tag = ptag) ∧
    (∀ hid : ℕ, EvHandler.mk boolTag hid ∉
      emit (subscribe es topic ⟨boolTag, hid⟩) topic intTag) := by
  refine ⟨fun h hm => emit_tag_eq es topic ptag h hm, fun hid hmem => ?_⟩
  have := emit_tag_eq _ _ _ _ hmem
  simp [boolTag, intTag] at this

/-- Witness for emit_type_match_only: on the bus with one int-typed
handler on topic "clamp", that handler is invoked by an int emit and
its tag is the payload tag. -/
theorem emit_type_match_only_witness :
    (⟨intTag, 7⟩ : EvHandler) ∈
      emit (subscribe ⟨[]⟩ "clamp" ⟨intTag, 7⟩) "clamp" intTag ∧
    (⟨intTag, 7⟩ : EvHandler).tag = intTag :=
  ⟨by decide,
    (emit_type_match_only (subscribe ⟨[]⟩ "clamp" ⟨intTag, 7⟩) "clamp" intTag).1
      ⟨intTag, 7⟩ (by decide)⟩

end
